import Mathlib

/-!
Shallow embedding of the fractal-generation repository
(src/Mandelbrot_interactive.py and src/Mandelbrot_animation.py).

Complex numbers are modelled as pairs of rationals; the Python floats are
modelled by exact arithmetic. Python `int()` truncation on nonnegative
values is natural-number division / `Int.floor`.
-/

namespace Fractal

/-- Complex addition on pairs of rationals: `(a + b)` componentwise. -/
def cAdd (a b : ℚ × ℚ) : ℚ × ℚ := (a.1 + b.1, a.2 + b.2)

/-- Complex multiplication on pairs of rationals, mirroring Python `z * z`
on `complex` values. -/
def cMul (a b : ℚ × ℚ) : ℚ × ℚ := (a.1 * b.1 - a.2 * b.2, a.1 * b.2 + a.2 * b.1)

/-- Squared magnitude `z.real*z.real + z.imag*z.imag`, exactly the divergence
test expression in `mandel` (Mandelbrot_interactive.py line 43 and
Mandelbrot_animation.py line 54). -/
def normSq (z : ℚ × ℚ) : ℚ := z.1 * z.1 + z.2 * z.2

/-- The loop body of `mandel`: `fuel` is the number of remaining loop
iterations and `n` the current loop index. Each iteration first tests
`z.real*z.real + z.imag*z.imag > 4` and returns `n` on divergence, else
updates `z ← z*z + c`; when the loop completes the function returns `0`. -/
def mandelGo (c : ℚ × ℚ) : ℚ × ℚ → ℕ → ℕ → ℕ
  | _, _, 0 => 0
  | z, n, fuel + 1 =>
      if 4 < normSq z then n else mandelGo c (cAdd (cMul z z) c) (n + 1) fuel

/-- `mandel(c, threshold)` from both source files: iterate `z` from `0 + 1j*0`
for `n in range(threshold)`, returning the first `n` whose `z` has squared
magnitude above 4, and `0` if the loop completes. -/
def mandel (c : ℚ × ℚ) (threshold : ℕ) : ℕ := mandelGo c (0, 0) 0 threshold

/-- The spec's statement of the kernel algorithm (spec §4.1), written as a
fold over the explicit index list `[0, threshold)`: iterate `z ← 0`; for `n`
in the list, if `|z|² > 4` return `n`, else `z ← z² + c`; return `0` if the
list is exhausted. This definition follows the spec's words and is compared
against `mandel`, which is translated from the source. -/
def escapeSpecGo (c : ℚ × ℚ) : ℚ × ℚ → List ℕ → ℕ
  | _, [] => 0
  | z, n :: ns =>
      if 4 < normSq z then n else escapeSpecGo c (cAdd (cMul z z) c) ns

/-- Spec-side escape function: run `escapeSpecGo` over the index list
`List.range threshold` starting from `z = 0`. -/
def escapeSpec (c : ℚ × ℚ) (threshold : ℕ) : ℕ :=
  escapeSpecGo c (0, 0) (List.range threshold)

/-- The fueled loop agrees with the list-driven spec loop when the fuel and
starting index match the index list `List.range' n fuel`. -/
theorem mandelGo_eq_escapeSpecGo (c : ℚ × ℚ) :
    ∀ (fuel : ℕ) (z : ℚ × ℚ) (n : ℕ),
      mandelGo c z n fuel = escapeSpecGo c z (List.range' n fuel) := by
  intro fuel
  induction fuel with
  | zero => intro z n; rfl
  | succ k ih =>
      intro z n
      rw [List.range'_succ]
      simp only [mandelGo, escapeSpecGo]
      by_cases h : 4 < normSq z
      · simp [h]
      · simp [h, ih]

/-- C2: the escape-time kernel computes exactly the spec's algorithm: for
every complex `c` and every threshold `> 0`, `mandel c threshold` (translated
from the source) equals `escapeSpec c threshold` (written from the spec's
words), where the divergence test is the squared-magnitude comparison
`z.real² + z.imag² > 4`. -/
theorem mandel_computes_spec_algorithm (c : ℚ × ℚ) (threshold : ℕ)
    (h : 0 < threshold) : mandel c threshold = escapeSpec c threshold := by
  rw [mandel, escapeSpec, List.range_eq_range']
  exact mandelGo_eq_escapeSpecGo c threshold (0, 0) 0

/-- Witness for C2 at `c = 1 + i`, `threshold = 5`. -/
theorem mandel_computes_spec_algorithm_witness :
    0 < 5 ∧ mandel (1, 1) 5 = escapeSpec (1, 1) 5 :=
  ⟨by norm_num, mandel_computes_spec_algorithm (1, 1) 5 (by norm_num)⟩

/-- If the fueled loop returns a nonzero value, adding fuel does not change
the result: the first escaping index is found within the smaller fuel. -/
theorem mandelGo_mono (c : ℚ × ℚ) :
    ∀ (fuel₁ fuel₂ : ℕ) (z : ℚ × ℚ) (n : ℕ), fuel₁ ≤ fuel₂ →
      mandelGo c z n fuel₁ ≠ 0 → mandelGo c z n fuel₂ = mandelGo c z n fuel₁ := by
  intro fuel₁
  induction fuel₁ with
  | zero => intro fuel₂ z n _ hne; exact absurd rfl hne
  | succ k ih =>
      intro fuel₂ z n hle hne
      obtain ⟨m, rfl⟩ : ∃ m, fuel₂ = m + 1 :=
        ⟨fuel₂ - 1, (Nat.succ_pred_eq_of_pos (Nat.lt_of_lt_of_le k.succ_pos hle)).symm⟩
      simp only [mandelGo] at hne ⊢
      by_cases h : 4 < normSq z
      · simp [h]
      · simp only [if_neg h] at hne ⊢
        exact ih m _ _ (Nat.succ_le_succ_iff.mp hle) hne

/-- The orbit of the origin never escapes: starting from `z = 0` with
`c = 0`, every loop iteration keeps `z = 0`, so the loop completes and
returns `0`. -/
theorem mandelGo_origin : ∀ (fuel n : ℕ), mandelGo (0, 0) (0, 0) n fuel = 0 := by
  intro fuel
  induction fuel with
  | zero => intro n; rfl
  | succ k ih =>
      intro n
      simp only [mandelGo, normSq, cAdd, cMul]
      norm_num
      simpa [cAdd, cMul] using ih (n + 1)

/-- C7: monotone discoverability of escape — for positive thresholds
`t₁ < t₂`, a nonzero escape count found at cap `t₁` is unchanged at cap
`t₂`; and the origin `c = 0` never escapes at any threshold. -/
theorem escape_monotone_discoverable :
    (∀ (c : ℚ × ℚ) (t₁ t₂ : ℕ), 0 < t₁ → t₁ < t₂ → mandel c t₁ ≠ 0 →
      mandel c t₂ = mandel c t₁) ∧
    (∀ threshold : ℕ, mandel (0, 0) threshold = 0) := by
  constructor
  · intro c t₁ t₂ _ hlt hne
    exact mandelGo_mono c t₁ t₂ (0, 0) 0 (Nat.le_of_lt hlt) hne
  · intro threshold
    exact mandelGo_origin threshold 0

/-- Witness for C7: at `c = 2`, `mandel` finds escape count 2 with cap 3,
and the count is unchanged at cap 5; the origin returns 0 at cap 7. -/
theorem escape_monotone_discoverable_witness :
    mandel (2, 0) 5 = mandel (2, 0) 3 ∧ mandel (0, 0) 7 = 0 :=
  ⟨escape_monotone_discoverable.1 (2, 0) 3 5 (by norm_num) (by norm_num)
      (by norm_num [mandel, mandelGo, normSq, cAdd, cMul]),
    escape_monotone_discoverable.2 7⟩

/-- C6 counterexample: the claim "for every `c` with `|c| > 2` and every
threshold `≥ 1`, `escape(c, threshold) > 0`" fails at `c = 3`,
`threshold = 1`: the single loop iteration tests `z = 0` (which has not
escaped) before the first update, so the loop completes and returns `0`. -/
theorem immediate_divergence_fails_at_threshold_one :
    4 < normSq (3, 0) ∧ 1 ≤ 1 ∧ ¬(0 < mandel (3, 0) 1) := by
  refine ⟨by norm_num [normSq], le_refl 1, ?_⟩
  norm_num [mandel, mandelGo, normSq, cAdd, cMul]

/-- C6 amended: for every `c` with `|c| > 2` (equivalently
`c.re² + c.im² > 4`) and every threshold `≥ 2`, `escape(c, threshold) > 0`:
iteration 0 moves `z` from `0` to `c`, and iteration 1 detects the escape. -/
theorem immediate_divergence_bound (c : ℚ × ℚ) (threshold : ℕ)
    (hc : 4 < normSq c) (ht : 2 ≤ threshold) : 0 < mandel c threshold := by
  obtain ⟨k, rfl⟩ : ∃ k, threshold = k + 2 :=
    ⟨threshold - 2, (Nat.sub_add_cancel ht).symm⟩
  have h0 : ¬(4 < normSq ((0 : ℚ), (0 : ℚ))) := by norm_num [normSq]
  have hz : cAdd (cMul ((0 : ℚ), (0 : ℚ)) ((0 : ℚ), (0 : ℚ))) c = c := by
    simp [cAdd, cMul]
  rw [mandel]
  simp only [mandelGo, if_neg h0, hz, if_pos hc]
  norm_num

/-- Witness for amended C6 at `c = 3`, `threshold = 2`. -/
theorem immediate_divergence_bound_witness :
    4 < normSq (3, 0) ∧ 2 ≤ 2 ∧ 0 < mandel (3, 0) 2 :=
  ⟨by norm_num [normSq], le_refl 2,
    immediate_divergence_bound (3, 0) 2 (by norm_num [normSq]) (le_refl 2)⟩

/-- The fueled loop's result is `0` or lies in `[n, n + fuel)`: a returned
escape index is one of the loop indices actually visited. -/
theorem mandelGo_range_bound (c : ℚ × ℚ) :
    ∀ (fuel : ℕ) (z : ℚ × ℚ) (n : ℕ),
      mandelGo c z n fuel = 0 ∨
        (n ≤ mandelGo c z n fuel ∧ mandelGo c z n fuel < n + fuel) := by
  intro fuel
  induction fuel with
  | zero => intro z n; exact Or.inl rfl
  | succ k ih =>
      intro z n
      simp only [mandelGo]
      by_cases h : 4 < normSq z
      · simp only [if_pos h]
        exact Or.inr ⟨le_refl n, Nat.lt_add_of_pos_right k.succ_pos⟩
      · simp only [if_neg h]
        rcases ih (cAdd (cMul z z) c) (n + 1) with h0 | ⟨hlo, hhi⟩
        · exact Or.inl h0
        · exact Or.inr ⟨Nat.le_of_succ_le hlo, by omega⟩

/-- C10: escape-count range and sentinel unambiguity — for every `c` and
threshold `≥ 1`, `mandel c threshold` is either `0` or a value `n` with
`1 ≤ n < threshold`; the escape branch at loop index 0 is unreachable since
`z` starts at `0`, so `0` uniquely denotes a non-escaping orbit. -/
theorem escape_count_range (c : ℚ × ℚ) (threshold : ℕ) (ht : 1 ≤ threshold) :
    mandel c threshold = 0 ∨
      (1 ≤ mandel c threshold ∧ mandel c threshold < threshold) := by
  obtain ⟨k, rfl⟩ : ∃ k, threshold = k + 1 :=
    ⟨threshold - 1, (Nat.sub_add_cancel ht).symm⟩
  have h0 : ¬(4 < normSq ((0 : ℚ), (0 : ℚ))) := by norm_num [normSq]
  rw [mandel]
  simp only [mandelGo, if_neg h0, Nat.zero_add]
  rcases mandelGo_range_bound c k (cAdd (cMul (0, 0) (0, 0)) c) 1 with h | ⟨hlo, hhi⟩
  · exact Or.inl h
  · exact Or.inr ⟨hlo, by omega⟩

/-- Witness for C10 at `c = 3`, `threshold = 3`. -/
theorem escape_count_range_witness :
    1 ≤ 3 ∧ (mandel (3, 0) 3 = 0 ∨ (1 ≤ mandel (3, 0) 3 ∧ mandel (3, 0) 3 < 3)) :=
  ⟨by norm_num, escape_count_range (3, 0) 3 (by norm_num)⟩

/-- `np.linspace(a, b, num)[k] = a + k*(b-a)/(num-1)`: the `k`-th point of
`num` evenly spaced points from `a` to `b`, as built at the top of
`mandelbrot_for_parallel`. -/
def linspace (a b : ℚ) (num : ℕ) (k : ℕ) : ℚ :=
  a + k * (b - a) / ((num : ℚ) - 1)

/-- `mandelbrot_for_parallel(xmin, xmax, ymin, ymax, threshold, yrange)` from
both source files: for each row `y` in `yrange` (in order) and each column
`x` in `range(resolution)`, append `mandel(re[x] + 1j*im[y], threshold)`,
where `re`/`im` are `linspace` axes of length `resolution`. -/
def mandelbrot_for_parallel (resolution : ℕ) (xmin xmax ymin ymax : ℚ)
    (threshold : ℕ) (yrange : List ℕ) : List ℕ :=
  yrange.flatMap fun y =>
    (List.range resolution).map fun x =>
      mandel (linspace xmin xmax resolution x, linspace ymin ymax resolution y)
        threshold

/-- `np.reshape(l, [resolution, resolution])`: cut a flat row-major list into
`resolution` rows of `resolution` entries, giving the 2-D Field. -/
def reshape (resolution : ℕ) (l : List ℕ) : List (List ℕ) :=
  (List.range resolution).map fun r => ((l.drop (r * resolution)).take resolution)

/-- C1: parallel/sequential equivalence of grid evaluation. For every
viewport with `xmin < xmax`, `ymin < ymax`, threshold `> 0`, and every
partition of the row index set `[0, resolution)` into ascending contiguous
bands (`bands.flatten = List.range resolution`), concatenating the per-band
outputs of `mandelbrot_for_parallel` in band order equals the single-band
evaluation over all rows; the total escape-count tally is `resolution²`
exactly; and reshaping both to `resolution × resolution` yields identical
Fields. -/
theorem parallel_sequential_equivalence (resolution : ℕ)
    (xmin xmax ymin ymax : ℚ) (threshold : ℕ) (bands : List (List ℕ))
    (hx : xmin < xmax) (hy : ymin < ymax) (ht : 0 < threshold)
    (hpart : bands.flatten = List.range resolution) :
    (bands.map
        (mandelbrot_for_parallel resolution xmin xmax ymin ymax threshold)).flatten
      = mandelbrot_for_parallel resolution xmin xmax ymin ymax threshold
          (List.range resolution) ∧
    (bands.map
        (mandelbrot_for_parallel resolution xmin xmax ymin ymax threshold)).flatten.length
      = resolution ^ 2 ∧
    reshape resolution
        (bands.map
          (mandelbrot_for_parallel resolution xmin xmax ymin ymax threshold)).flatten
      = reshape resolution
          (mandelbrot_for_parallel resolution xmin xmax ymin ymax threshold
            (List.range resolution)) := by
  have hgen : ∀ bs : List (List ℕ),
      (bs.map
          (mandelbrot_for_parallel resolution xmin xmax ymin ymax threshold)).flatten
        = mandelbrot_for_parallel resolution xmin xmax ymin ymax threshold
            bs.flatten := by
    intro bs
    induction bs with
    | nil => rfl
    | cons b t ih =>
        simp only [List.map_cons, List.flatten_cons, ih,
          mandelbrot_for_parallel, List.flatMap_append]
  have hconcat :
      (bands.map
          (mandelbrot_for_parallel resolution xmin xmax ymin ymax threshold)).flatten
        = mandelbrot_for_parallel resolution xmin xmax ymin ymax threshold
            (List.range resolution) := by
    rw [hgen bands, hpart]
  refine ⟨hconcat, ?_, by rw [hconcat]⟩
  rw [hconcat, mandelbrot_for_parallel, List.length_flatMap]
  simp [Function.comp_def, List.map_const, List.sum_replicate, smul_eq_mul,
    pow_two]

/-- Witness for C1: `resolution = 2`, bands `[[0], [1]]`, unit viewport,
threshold 1. -/
theorem parallel_sequential_equivalence_witness :
    (0 : ℚ) < 1 ∧ (0 : ℚ) < 1 ∧ 0 < 1 ∧
      ([[0], [1]] : List (List ℕ)).flatten = List.range 2 ∧
      ((([[0], [1]] : List (List ℕ)).map
          (mandelbrot_for_parallel 2 0 1 0 1 1)).flatten
        = mandelbrot_for_parallel 2 0 1 0 1 1 (List.range 2) ∧
      (([[0], [1]] : List (List ℕ)).map
          (mandelbrot_for_parallel 2 0 1 0 1 1)).flatten.length = 2 ^ 2 ∧
      reshape 2 (([[0], [1]] : List (List ℕ)).map
          (mandelbrot_for_parallel 2 0 1 0 1 1)).flatten
        = reshape 2 (mandelbrot_for_parallel 2 0 1 0 1 1 (List.range 2))) :=
  ⟨by norm_num, by norm_num, by norm_num, by decide,
    parallel_sequential_equivalence 2 0 1 0 1 1 [[0], [1]]
      (by norm_num) (by norm_num) (by norm_num) (by decide)⟩

/-- The interactive session state mutated by `onclick`
(Mandelbrot_interactive.py): zoom level, iteration threshold, and viewport
bounds. `zoom` starts at 1 and is only doubled or floor-halved, so it is a
natural number; Python `int(zoom/2)` on nonnegative `zoom` is `zoom / 2`. -/
structure IState where
  zoom : ℕ
  threshold : ℕ
  xmin : ℚ
  xmax : ℚ
  ymin : ℚ
  ymax : ℚ
  deriving Repr, DecidableEq

/-- `add_thresh = 50` from the interactive main block. -/
def add_thresh : ℕ := 50

/-- `onclick(event)` from Mandelbrot_interactive.py. `button = 1` is a left
click, `button = 3` a right click; `(px, py)` is `(event.xdata, event.ydata)`.
Left click: `zoom *= 2; threshold += add_thresh`. Right click:
`zoom = int(zoom/2)`; `threshold -= add_thresh` only when
`threshold > add_thresh`. Then the clicked plane point
`(xmin + (xmax-xmin)*px/resolution, ymin + (ymax-ymin)*py/resolution)`
becomes the centre of a window of half-extent `1.5/zoom` on both axes.
When the updated `zoom` is `0`, Python raises `ZeroDivisionError` at
`1.5/zoom`; that failure is `none`. -/
def onclick (resolution : ℕ) (s : IState) (button : ℕ) (px py : ℚ) :
    Option IState :=
  let zoom1 := if button = 1 then s.zoom * 2
    else if button = 3 then s.zoom / 2 else s.zoom
  let threshold1 := if button = 1 then s.threshold + add_thresh
    else if button = 3 then
      (if add_thresh < s.threshold then s.threshold - add_thresh
       else s.threshold)
    else s.threshold
  let posx := s.xmin + (s.xmax - s.xmin) * px / resolution
  let posy := s.ymin + (s.ymax - s.ymin) * py / resolution
  if zoom1 = 0 then none
  else some
    { zoom := zoom1
      threshold := threshold1
      xmin := posx - 3 / 2 / zoom1
      xmax := posx + 3 / 2 / zoom1
      ymin := posy - 3 / 2 / zoom1
      ymax := posy + 3 / 2 / zoom1 }

/-- C5: right-click at the initial interactive state (`zoom = 1`,
`threshold = 70`, bounds `[-2, 1] × [-1.5, 1.5]`, `resolution = 2800`)
does not produce the claimed `max(1, zoomLevel/2) = 1`: the code computes
`int(1/2) = 0` and then raises `ZeroDivisionError` at `1.5/zoom`, so the
transition fails instead of completing with zoom level 1. -/
theorem rightclick_at_zoom_one_fails :
    onclick 2800 ⟨1, 70, -2, 1, -3/2, 3/2⟩ 3 1400 1400 = none ∧
      max 1 (1 / 2) = 1 := by
  constructor
  · rfl
  · rfl

/-- C8: the interactive state `zoom = 1`, `threshold = 120`, bounds
`[-2, 1] × [-1.5, 1.5]` satisfies the viewport invariant
(`xmin < xmax`, `ymin < ymax`, `threshold > 0`), yet the right-click
transition does not complete: `zoom` becomes `int(1/2) = 0` and
`1.5/zoom` raises `ZeroDivisionError`. -/
theorem invariant_state_rightclick_errors :
    ((-2 : ℚ) < 1 ∧ (-3/2 : ℚ) < 3/2 ∧ 0 < 120) ∧
      onclick 2800 ⟨1, 120, -2, 1, -3/2, 3/2⟩ 3 0 0 = none := by
  exact ⟨⟨by norm_num, by norm_num, by norm_num⟩, rfl⟩

/-- A left click succeeds whenever the current zoom is nonzero, doubling the
zoom and adding `add_thresh` to the threshold. -/
theorem onclick_left_result (resolution : ℕ) (s : IState) (px py : ℚ)
    (h : s.zoom ≠ 0) :
    ∃ t, onclick resolution s 1 px py = some t ∧
      t.zoom = s.zoom * 2 ∧ t.threshold = s.threshold + add_thresh := by
  unfold onclick
  norm_num
  exact ⟨_, ⟨h, rfl⟩, rfl, rfl⟩

/-- A right click succeeds whenever the floor-halved zoom is nonzero,
halving the zoom and decreasing the threshold by `add_thresh` only when the
result stays positive. -/
theorem onclick_right_result (resolution : ℕ) (s : IState) (px py : ℚ)
    (h : s.zoom / 2 ≠ 0) :
    ∃ t, onclick resolution s 3 px py = some t ∧
      t.zoom = s.zoom / 2 ∧
      t.threshold = if add_thresh < s.threshold then s.threshold - add_thresh
        else s.threshold := by
  unfold onclick
  norm_num
  exact ⟨_, ⟨h, rfl⟩, rfl, rfl⟩

/-- C9: click round-trip — from any state with `threshold > 0` and
`zoomLevel ≥ 1`, a left click followed by a right click at the same pixel
restores both the zoom level and the threshold to their pre-click values
(the threshold floor clamp is not hit because `threshold + add_thresh`
exceeds `add_thresh`). -/
theorem click_roundtrip (resolution : ℕ) (s : IState) (px py : ℚ)
    (hz : 1 ≤ s.zoom) (ht : 0 < s.threshold) :
    ∃ s₁ s₂ : IState,
      onclick resolution s 1 px py = some s₁ ∧
      onclick resolution s₁ 3 px py = some s₂ ∧
      s₂.zoom = s.zoom ∧ s₂.threshold = s.threshold := by
  obtain ⟨s₁, h1, hz1, ht1⟩ := onclick_left_result resolution s px py (by omega)
  obtain ⟨s₂, h2, hz2, ht2⟩ :=
    onclick_right_result resolution s₁ px py (by rw [hz1]; omega)
  refine ⟨s₁, s₂, h1, h2, ?_, ?_⟩
  · rw [hz2, hz1]
    omega
  · rw [ht2, ht1]
    have hcl : add_thresh < s.threshold + add_thresh := by
      unfold add_thresh
      omega
    rw [if_pos hcl]
    omega

/-- Witness for C9 at the initial interactive state, clicking the centre
pixel. -/
theorem click_roundtrip_witness :
    1 ≤ (⟨1, 70, -2, 1, -3/2, 3/2⟩ : IState).zoom ∧
    0 < (⟨1, 70, -2, 1, -3/2, 3/2⟩ : IState).threshold ∧
    ∃ s₁ s₂ : IState,
      onclick 2800 ⟨1, 70, -2, 1, -3/2, 3/2⟩ 1 1400 1400 = some s₁ ∧
      onclick 2800 s₁ 3 1400 1400 = some s₂ ∧
      s₂.zoom = (⟨1, 70, -2, 1, -3/2, 3/2⟩ : IState).zoom ∧
      s₂.threshold = (⟨1, 70, -2, 1, -3/2, 3/2⟩ : IState).threshold :=
  ⟨by norm_num, by norm_num,
    click_roundtrip 2800 ⟨1, 70, -2, 1, -3/2, 3/2⟩ 1400 1400
      (by norm_num) (by norm_num)⟩

/-- Python `int()` applied to a real value truncates toward zero: the floor
for nonnegative arguments and the ceiling for negative ones. -/
noncomputable def pyInt (x : ℝ) : ℤ := if 0 ≤ x then ⌊x⌋ else ⌈x⌉

/-- The viewport bounds computed by `animate(i)` in Mandelbrot_animation.py:
`new_xmin = xmin + 0.5*(xmax-xmin)*(1 - 1/2**(delta*i))` and the symmetric
formulas for `xmax`, `ymin`, `ymax`, each an absolute function of the frame
index `i` and the starting bounds. -/
noncomputable def animateBounds (xmin xmax ymin ymax delta : ℝ) (i : ℕ) :
    ℝ × ℝ × ℝ × ℝ :=
  (xmin + 0.5 * (xmax - xmin) * (1 - 1 / (2 : ℝ) ^ (delta * i)),
   xmax - 0.5 * (xmax - xmin) * (1 - 1 / (2 : ℝ) ^ (delta * i)),
   ymin + 0.5 * (ymax - ymin) * (1 - 1 / (2 : ℝ) ^ (delta * i)),
   ymax - 0.5 * (ymax - ymin) * (1 - 1 / (2 : ℝ) ^ (delta * i)))

/-- The frame-`i` threshold computed by `animate(i)`:
`new_threshold = threshold + int(delta*i*50)`. -/
noncomputable def animateThreshold (threshold : ℕ) (delta : ℝ) (i : ℕ) : ℤ :=
  threshold + pyInt (delta * i * 50)

/-- `num_frames = int(np.log2(zoom)/delta)` from the animation main block. -/
noncomputable def num_frames (zoomTarget delta : ℝ) : ℤ :=
  pyInt (Real.logb 2 zoomTarget / delta)

/-- The spec's closed form for the frame-`i` bounds (spec §4.4), written with
`2^(-delta*i)`: `new_xmin = xmin + 0.5*(xmax-xmin)*(1 - 2^(-delta*i))` and
symmetric formulas for the other three bounds. Compared against
`animateBounds`, which is translated from the source. -/
noncomputable def specBounds (xmin xmax ymin ymax delta : ℝ) (i : ℕ) :
    ℝ × ℝ × ℝ × ℝ :=
  (xmin + 0.5 * (xmax - xmin) * (1 - (2 : ℝ) ^ (-(delta * i))),
   xmax - 0.5 * (xmax - xmin) * (1 - (2 : ℝ) ^ (-(delta * i))),
   ymin + 0.5 * (ymax - ymin) * (1 - (2 : ℝ) ^ (-(delta * i))),
   ymax - 0.5 * (ymax - ymin) * (1 - (2 : ℝ) ^ (-(delta * i))))

/-- The spec's frame-`i` threshold: `threshold + floor(delta*i*50)`. -/
noncomputable def specThreshold (threshold : ℕ) (delta : ℝ) (i : ℕ) : ℤ :=
  threshold + ⌊delta * i * 50⌋

/-- The spec's frame count: `floor(log2(zoomTarget) / delta)`. -/
noncomputable def specNumFrames (zoomTarget delta : ℝ) : ℤ :=
  ⌊Real.logb 2 zoomTarget / delta⌋

/-- C3: animation-step closed form — for every starting bounds, starting
threshold, `delta > 0`, frame index `i ≥ 0`, and zoom target `≥ 1`, the
code's frame-`i` viewport equals the spec's closed form
`xmin + 0.5*(xmax-xmin)*(1 - 2^(-delta*i))` (and symmetric bounds), its
frame-`i` threshold equals `threshold + floor(delta*i*50)`, its frame count
equals `floor(log2(zoomTarget)/delta)`, and recomputing with identical
inputs yields identical results. -/
theorem animation_step_closed_form (xmin xmax ymin ymax : ℝ) (threshold : ℕ)
    (delta zoomTarget : ℝ) (i : ℕ) (hd : 0 < delta) (hz : 1 ≤ zoomTarget) :
    animateBounds xmin xmax ymin ymax delta i
        = specBounds xmin xmax ymin ymax delta i ∧
      animateThreshold threshold delta i = specThreshold threshold delta i ∧
      num_frames zoomTarget delta = specNumFrames zoomTarget delta ∧
      animateBounds xmin xmax ymin ymax delta i
        = animateBounds xmin xmax ymin ymax delta i := by
  refine ⟨?_, ?_, ?_, rfl⟩
  · rw [animateBounds, specBounds,
      Real.rpow_neg (by norm_num : (0 : ℝ) ≤ 2) (delta * i), ← one_div]
  · rw [animateThreshold, specThreshold, pyInt,
      if_pos (by positivity : (0 : ℝ) ≤ delta * i * 50)]
  · have hlog : 0 ≤ Real.logb 2 zoomTarget :=
      Real.logb_nonneg (by norm_num) hz
    rw [num_frames, specNumFrames, pyInt,
      if_pos (div_nonneg hlog hd.le)]

/-- Witness for C3 at the animation's own configuration restricted to small
values: bounds `[0, 3] × [0, 3]`, `threshold = 70`, `delta = 1`,
`zoomTarget = 2`, `i = 0`. -/
theorem animation_step_closed_form_witness :
    (0 : ℝ) < 1 ∧ (1 : ℝ) ≤ 2 ∧
      (animateBounds 0 3 0 3 1 0 = specBounds 0 3 0 3 1 0 ∧
        animateThreshold 70 1 0 = specThreshold 70 1 0 ∧
        num_frames 2 1 = specNumFrames 2 1 ∧
        animateBounds 0 3 0 3 1 0 = animateBounds 0 3 0 3 1 0) :=
  ⟨by norm_num, by norm_num,
    animation_step_closed_form 0 3 0 3 70 1 2 0 (by norm_num) (by norm_num)⟩

/-- State of the animation driver's frame loop (Mandelbrot_animation.py main
block): which artifact locations exist on disk (`artifacts i` models
`os.path.exists` for `AnimatedFrames/frame{i}.png`), which frame indices the
run has rendered via `animate(i)`/`plt.savefig` (`computed`, in order), and
the locations recorded in the `frames` list (modelled by frame index, in
order). -/
structure DriverState where
  artifacts : ℕ → Bool
  computed : List ℕ
  frames : List ℕ

/-- One iteration of the frame loop: if the artifact for frame `i` exists,
only record its location; otherwise render frame `i`, save the artifact, and
record the location. -/
def frameStep (s : DriverState) (i : ℕ) : DriverState :=
  if s.artifacts i then
    { s with frames := s.frames ++ [i] }
  else
    { artifacts := fun j => if j = i then true else s.artifacts j
      computed := s.computed ++ [i]
      frames := s.frames ++ [i] }

/-- The driver's frame loop `for i in range(num_frames)`, starting from the
initial on-disk artifact set `ex`. -/
def runFrames (ex : ℕ → Bool) (numFrames : ℕ) : DriverState :=
  (List.range numFrames).foldl frameStep ⟨ex, [], []⟩

/-- Unfolding one iteration off the end of the frame loop. -/
theorem runFrames_succ (ex : ℕ → Bool) (n : ℕ) :
    runFrames ex (n + 1) = frameStep (runFrames ex n) n := by
  rw [runFrames, List.range_succ, List.foldl_append, List.foldl_cons,
    List.foldl_nil, runFrames]

/-- After the frame loop, an artifact exists exactly when it existed before
the run or its index was in the run's range. -/
theorem runFrames_artifacts (ex : ℕ → Bool) :
    ∀ (n : ℕ) (i : ℕ),
      (runFrames ex n).artifacts i = (ex i || decide (i < n)) := by
  intro n
  induction n with
  | zero => intro i; simp [runFrames]
  | succ k ih =>
      intro i
      rw [runFrames_succ]
      have hdec : (decide (i < k + 1) : Bool)
          = (decide (i < k) || decide (i = k)) := by
        by_cases h1 : i < k
        · simp [h1, Nat.lt_succ_of_lt h1]
        · by_cases h2 : i = k
          · subst h2
            simp
          · have h3 : ¬ i < k + 1 := by omega
            simp [h1, h2, h3]
      rw [frameStep]
      by_cases hk : (runFrames ex k).artifacts k = true
      · rw [if_pos hk]
        dsimp only
        rw [ih i, hdec]
        by_cases h2 : i = k
        · subst h2
          rw [ih i] at hk
          have hkk : (decide (i < i) : Bool) = false := by simp
          rw [hkk, Bool.or_false] at hk
          rw [hk]
          simp
        · simp [h2]
      · rw [if_neg hk]
        dsimp only
        by_cases h2 : i = k
        · subst h2
          rw [if_pos rfl, hdec]
          simp
        · rw [if_neg h2, ih i, hdec]
          simp [h2]

/-- The frame loop renders exactly the frames whose artifacts were initially
absent, in ascending order. -/
theorem runFrames_computed (ex : ℕ → Bool) :
    ∀ n : ℕ,
      (runFrames ex n).computed = (List.range n).filter (fun i => !ex i) := by
  intro n
  induction n with
  | zero => rfl
  | succ k ih =>
      rw [runFrames_succ, List.range_succ, List.filter_append, frameStep]
      by_cases hk : (runFrames ex k).artifacts k = true
      · rw [if_pos hk]
        rw [runFrames_artifacts ex k k] at hk
        have hex : ex k = true := by
          rcases Bool.or_eq_true_iff.mp hk with h | h
          · exact h
          · exact absurd (of_decide_eq_true h) (Nat.lt_irrefl k)
        simp [ih, hex]
      · rw [if_neg hk]
        rw [runFrames_artifacts ex k k] at hk
        have hex : ex k = false := by
          rcases hex' : ex k with _ | _
          · rfl
          · exact absurd (by rw [hex']; rfl) hk
        simp [ih, hex]

/-- The frame loop records every frame location in ascending frame order. -/
theorem runFrames_frames (ex : ℕ → Bool) :
    ∀ n : ℕ, (runFrames ex n).frames = List.range n := by
  intro n
  induction n with
  | zero => rfl
  | succ k ih =>
      rw [runFrames_succ, List.range_succ, frameStep]
      by_cases hk : (runFrames ex k).artifacts k = true
      · rw [if_pos hk]
        simp [ih]
      · rw [if_neg hk]
        simp [ih]

/-- C4: resumability of the frame cache — the driver renders and saves frame
`i` iff no artifact exists at its location; it records every frame's
location in ascending frame order; and a second run over `n₂ ≥ n₁` frames,
starting from the artifacts left by a first run over `n₁` frames, renders
only frames whose artifacts are absent — in particular it never re-renders
any frame index below `n₁`. -/
theorem frame_cache_resumability (ex : ℕ → Bool) (n₁ n₂ : ℕ) (h : n₁ ≤ n₂) :
    (∀ i, i ∈ (runFrames ex n₁).computed ↔ (i < n₁ ∧ ex i = false)) ∧
    (runFrames ex n₁).frames = List.range n₁ ∧
    (∀ i, i ∈ (runFrames ((runFrames ex n₁).artifacts) n₂).computed →
      (runFrames ex n₁).artifacts i = false) ∧
    (∀ i, i < n₁ →
      i ∉ (runFrames ((runFrames ex n₁).artifacts) n₂).computed) := by
  have hmem : ∀ (e : ℕ → Bool) (n : ℕ) (i : ℕ),
      i ∈ (runFrames e n).computed ↔ (i < n ∧ e i = false) := by
    intro e n i
    rw [runFrames_computed e n]
    simp [List.mem_filter, List.mem_range]
  refine ⟨hmem ex n₁, runFrames_frames ex n₁, ?_, ?_⟩
  · intro i hi
    exact ((hmem _ n₂ i).mp hi).2
  · intro i hlt hi
    have hfalse := ((hmem _ n₂ i).mp hi).2
    rw [runFrames_artifacts ex n₁ i] at hfalse
    have hdec : decide (i < n₁) = true := decide_eq_true hlt
    rw [hdec, Bool.or_true] at hfalse
    exact Bool.noConfusion hfalse

/-- Witness for C4: first run of 2 frames from an empty cache, second run of
3 frames. -/
theorem frame_cache_resumability_witness :
    2 ≤ 3 ∧
    ((∀ i, i ∈ (runFrames (fun _ => false) 2).computed ↔
        (i < 2 ∧ (fun _ => false) i = false)) ∧
      (runFrames (fun _ => false) 2).frames = List.range 2 ∧
      (∀ i,
        i ∈ (runFrames ((runFrames (fun _ => false) 2).artifacts) 3).computed →
        (runFrames (fun _ => false) 2).artifacts i = false) ∧
      (∀ i, i < 2 →
        i ∉ (runFrames ((runFrames (fun _ => false) 2).artifacts) 3).computed)) :=
  ⟨by norm_num, frame_cache_resumability (fun _ => false) 2 3 (by norm_num)⟩

end Fractal
